import Mathlib

/-!
Verification of the x-image-downloader pipeline.

The development shallowly embeds the Python sources:
* `src/xid/downloader.py` — URL cleaning and filename derivation, modelled on
  `List Char` (Python strings);
* `src/xid/utils.py` — metadata file content and folder creation;
* `src/xid/twitter.py` — the paginated timeline walk `get_tweets_with_images`,
  modelled as a pure function from an input stream of pages (plus a download
  success oracle) to a run state holding the counters and an append-only log of
  filesystem events.
-/

namespace XID

/-! ## String helpers (Python string operations on `List Char`) -/

/-- Python `s.split('?')[0]`: the part of the string before the first `'?'`
(the whole string when there is no `'?'`). -/
def stripQuery (s : List Char) : List Char :=
  s.takeWhile (fun c => c ≠ '?')

/-- Python `s.split(sep)[-1]`: the part of the string after the last
occurrence of `sep` (the whole string when `sep` does not occur). -/
def lastSegment (sep : Char) (s : List Char) : List Char :=
  (s.reverse.takeWhile (fun c => c ≠ sep)).reverse

/-- The Twitter size suffixes of `downloader.py`, in source order. -/
def sizeSuffixes : List (List Char) :=
  [":large".data, ":medium".data, ":small".data, ":thumb".data]

/-- The first size suffix (in list order) that `s` ends with, if any.  This
models the Python loop `for suffix in size_suffixes: if s.endswith(suffix):
...; break`: the first match wins. -/
def findSuffix (s : List Char) : Option (List Char) :=
  sizeSuffixes.find? (fun suf => decide (suf <:+ s))

/-- The suffix-handling loop of `extract_filename_from_url`
(`src/xid/downloader.py` lines 58–66): strip the first matching size suffix,
but keep the original segment when no `.` would survive in `name_part`. -/
def stripSuffixKeepExt (image_filename : List Char) : List Char :=
  match findSuffix image_filename with
  | none => image_filename
  | some suf =>
    let name_part := image_filename.take (image_filename.length - suf.length)
    if '.' ∈ name_part then name_part else image_filename

/-- Function `extract_filename_from_url` from `src/xid/downloader.py`: drop the query
string, take the last path segment, then the suffix-handling loop. -/
def extract_filename_from_url (url : List Char) : List Char :=
  stripSuffixKeepExt (lastSegment '/' (stripQuery url))

/-- The suffix-stripping loop at the top of `download_image`
(`src/xid/downloader.py` lines 21–25): strip the first matching trailing size
suffix unconditionally. -/
def stripSuffix (s : List Char) : List Char :=
  match findSuffix s with
  | none => s
  | some suf => s.take (s.length - suf.length)

/-- The full-quality URL `original_url` computed at the top of
`download_image` in `src/xid/downloader.py`: drop the query string, then
strip one trailing size suffix if present (applied to the whole URL). -/
def original_url (image_url : List Char) : List Char :=
  stripSuffix (stripQuery image_url)

/-! ### Lemmas about the string helpers -/

theorem mem_stripQuery {c : Char} {s : List Char} (h : c ∈ stripQuery s) :
    c ≠ '?' ∧ c ∈ s := by
  unfold stripQuery at h
  refine ⟨?_, (List.takeWhile_sublist _).subset h⟩
  have := List.mem_takeWhile_imp h
  simpa using this

theorem lastSegment_suffix (sep : Char) (s : List Char) :
    lastSegment sep s <:+ s := by
  refine ⟨(s.reverse.dropWhile (fun c => c ≠ sep)).reverse, ?_⟩
  simp only [lastSegment]
  rw [← List.reverse_append, List.takeWhile_append_dropWhile, List.reverse_reverse]

theorem mem_lastSegment {c sep : Char} {s : List Char}
    (h : c ∈ lastSegment sep s) : c ≠ sep ∧ c ∈ s := by
  constructor
  · unfold lastSegment at h
    rw [List.mem_reverse] at h
    have := List.mem_takeWhile_imp h
    simpa using this
  · exact (lastSegment_suffix sep s).subset h

theorem findSuffix_some {s suf : List Char} (h : findSuffix s = some suf) :
    suf ∈ sizeSuffixes ∧ ∃ t, s = t ++ suf := by
  unfold findSuffix at h
  refine ⟨List.mem_of_find?_eq_some h, ?_⟩
  have hp := List.find?_some h
  rw [decide_eq_true_iff] at hp
  obtain ⟨t, ht⟩ := hp
  exact ⟨t, ht.symm⟩

theorem take_append_length (t suf : List Char) :
    (t ++ suf).take ((t ++ suf).length - suf.length) = t := by
  rw [List.length_append, Nat.add_sub_cancel, List.take_left]

theorem noSlash_sizeSuffixes : ∀ suf ∈ sizeSuffixes, '/' ∉ suf := by decide

theorem noDot_sizeSuffixes : ∀ suf ∈ sizeSuffixes, '.' ∉ suf := by decide

theorem noQuestion_sizeSuffixes : ∀ suf ∈ sizeSuffixes, '?' ∉ suf := by decide

theorem takeWhile_all {p : Char → Bool} {l : List Char}
    (h : ∀ a ∈ l, p a = true) : l.takeWhile p = l := by
  induction l with
  | nil => rfl
  | cons a l ih =>
      simp [List.takeWhile, h a (List.mem_cons_self a l),
        ih (fun b hb => h b (List.mem_cons_of_mem a hb))]

theorem lastSegment_append {sep : Char} {suf : List Char} (t : List Char)
    (hsep : sep ∉ suf) :
    lastSegment sep (t ++ suf) = lastSegment sep t ++ suf := by
  unfold lastSegment
  rw [List.reverse_append]
  have hall : ∀ a ∈ suf.reverse, (fun c => decide (c ≠ sep)) a = true := by
    intro a ha
    rw [List.mem_reverse] at ha
    simp only [decide_eq_true_iff]
    intro hEq
    exact hsep (hEq ▸ ha)
  rw [List.takeWhile_append, takeWhile_all hall]
  simp [List.reverse_append]

theorem stripSuffixKeepExt_none {s : List Char} (h : findSuffix s = none) :
    stripSuffixKeepExt s = s := by
  unfold stripSuffixKeepExt
  rw [h]

theorem stripSuffixKeepExt_some {s suf : List Char} (h : findSuffix s = some suf) :
    stripSuffixKeepExt s =
      if '.' ∈ s.take (s.length - suf.length)
      then s.take (s.length - suf.length) else s := by
  unfold stripSuffixKeepExt
  rw [h]

theorem stripSuffix_none {s : List Char} (h : findSuffix s = none) :
    stripSuffix s = s := by
  unfold stripSuffix
  rw [h]

theorem stripSuffix_some {s suf : List Char} (h : findSuffix s = some suf) :
    stripSuffix s = s.take (s.length - suf.length) := by
  unfold stripSuffix
  rw [h]

theorem find?_congr {α : Type} {p q : α → Bool} :
    ∀ l : List α, (∀ a ∈ l, p a = q a) → l.find? p = l.find? q := by
  intro l h
  induction l with
  | nil => rfl
  | cons a l ih =>
      have ha := h a (List.mem_cons_self a l)
      cases hq : q a with
      | true =>
          rw [List.find?_cons_of_pos _ (by rw [ha, hq]),
            List.find?_cons_of_pos _ hq]
      | false =>
          rw [List.find?_cons_of_neg _ (by simp [ha, hq]),
            List.find?_cons_of_neg _ (by simp [hq])]
          exact ih (fun b hb => h b (List.mem_cons_of_mem a hb))

theorem findSuffix_lastSegment (s : List Char) :
    findSuffix (lastSegment '/' s) = findSuffix s := by
  unfold findSuffix
  refine find?_congr _ ?_
  intro suf hsuf
  rw [decide_eq_decide]
  constructor
  · intro hsfx
    exact hsfx.trans (lastSegment_suffix '/' s)
  · rintro ⟨t, ht⟩
    exact ⟨lastSegment '/' t,
      by rw [← ht, lastSegment_append t (noSlash_sizeSuffixes suf hsuf)]⟩

/-- Case analysis for `extract_filename_from_url`: the result is either the
raw last segment of the query-stripped URL, or that segment minus one size
suffix, and in the latter case a `.` survived. -/
theorem extract_filename_cases (url : List Char) :
    extract_filename_from_url url = lastSegment '/' (stripQuery url) ∨
    ∃ suf ∈ sizeSuffixes,
      lastSegment '/' (stripQuery url) = extract_filename_from_url url ++ suf ∧
      '.' ∈ extract_filename_from_url url := by
  unfold extract_filename_from_url
  cases hfs : findSuffix (lastSegment '/' (stripQuery url)) with
  | none => exact Or.inl (stripSuffixKeepExt_none hfs)
  | some suf =>
      obtain ⟨hmem, t, ht⟩ := findSuffix_some hfs
      rw [stripSuffixKeepExt_some hfs, ht, take_append_length]
      by_cases hdot : '.' ∈ t
      · exact Or.inr ⟨suf, hmem, by rw [if_pos hdot], by rw [if_pos hdot]; exact hdot⟩
      · exact Or.inl (by rw [if_neg hdot])

/-- Case analysis for `stripSuffix`: either no suffix matched and the string
is unchanged, or exactly one trailing size suffix was removed. -/
theorem stripSuffix_cases (s : List Char) :
    (stripSuffix s = s ∧ findSuffix s = none) ∨
    ∃ suf ∈ sizeSuffixes, s = stripSuffix s ++ suf := by
  cases hfs : findSuffix s with
  | none => exact Or.inl ⟨stripSuffix_none hfs, rfl⟩
  | some suf =>
      obtain ⟨hmem, t, ht⟩ := findSuffix_some hfs
      rw [stripSuffix_some hfs, ht, take_append_length]
      exact Or.inr ⟨suf, hmem, rfl⟩

theorem extract_subset_segment (url : List Char) {c : Char}
    (h : c ∈ extract_filename_from_url url) :
    c ∈ lastSegment '/' (stripQuery url) := by
  rcases extract_filename_cases url with heq | ⟨suf, _, heq, _⟩
  · rwa [heq] at h
  · rw [heq]
    exact List.mem_append_left _ h

/-! ## Claims about the URL cleaning functions -/

/-- C3: `extract_filename_from_url` strips everything from the first `?`
onward, takes the substring after the last `/`, and removes a trailing size
suffix `:large`, `:medium`, `:small` or `:thumb` (first match in that order)
only when the remaining text still contains a `.`; hence the result never
contains `?`, the input `".../foo.jpg:large?x=1"` yields `"foo.jpg"`, and
`".../foo:large"` is returned unchanged. -/
theorem C3_normalize_filename :
    (∀ url : List Char, '?' ∉ extract_filename_from_url url) ∧
    (∀ url : List Char,
      extract_filename_from_url url = lastSegment '/' (stripQuery url) ∨
      ∃ suf ∈ sizeSuffixes,
        lastSegment '/' (stripQuery url) = extract_filename_from_url url ++ suf ∧
        '.' ∈ extract_filename_from_url url) ∧
    extract_filename_from_url "https://pbs.twimg.com/media/foo.jpg:large?x=1".data
      = "foo.jpg".data ∧
    extract_filename_from_url "https://pbs.twimg.com/media/foo:large".data
      = "foo:large".data := by
  refine ⟨?_, extract_filename_cases, by decide, by decide⟩
  intro url h
  exact (mem_stripQuery (mem_lastSegment (extract_subset_segment url h)).2).1 rfl

theorem C3_normalize_filename_witness :
    '?' ∉ extract_filename_from_url "https://a/b.png?q=1".data :=
  C3_normalize_filename.1 _

/-- C6: the full-quality URL derived inside `download_image` equals the input
with the query string removed and then at most one trailing size suffix
removed; `"https://pbs.twimg.com/media/ABC.jpg:small"` derives to
`"https://pbs.twimg.com/media/ABC.jpg"`, and a URL with no recognized
trailing suffix derives to itself minus any query string. -/
theorem C6_full_quality_url :
    original_url "https://pbs.twimg.com/media/ABC.jpg:small".data
      = "https://pbs.twimg.com/media/ABC.jpg".data ∧
    (∀ url : List Char, findSuffix (stripQuery url) = none →
      original_url url = stripQuery url) ∧
    (∀ url : List Char, original_url url = stripQuery url ∨
      ∃ suf ∈ sizeSuffixes, stripQuery url = original_url url ++ suf) ∧
    (∀ url : List Char, '?' ∉ original_url url) := by
  refine ⟨by decide, ?_, ?_, ?_⟩
  · intro url h
    exact stripSuffix_none h
  · intro url
    rcases stripSuffix_cases (stripQuery url) with ⟨h, _⟩ | h
    · exact Or.inl h
    · exact Or.inr h
  · intro url h
    have hq : '?' ∈ stripQuery url := by
      rcases stripSuffix_cases (stripQuery url) with ⟨heq, _⟩ | ⟨suf, _, heq⟩
      · rw [← heq]
        exact h
      · rw [heq]
        exact List.mem_append_left _ h
    exact (mem_stripQuery hq).1 rfl

theorem C6_full_quality_url_witness :
    original_url "https://a/b.jpg".data = stripQuery "https://a/b.jpg".data :=
  C6_full_quality_url.2.1 _ (by decide)

/-- C7: the two duplicated URL-cleaning rules agree — whenever the filename
returned by `extract_filename_from_url` contains a `.`, it equals the
substring after the last `/` of the full-quality URL derived inside
`download_image`. -/
theorem C7_duplicated_rules_agree (url : List Char)
    (h : '.' ∈ extract_filename_from_url url) :
    extract_filename_from_url url = lastSegment '/' (original_url url) := by
  have hfs := findSuffix_lastSegment (stripQuery url)
  show stripSuffixKeepExt (lastSegment '/' (stripQuery url))
      = lastSegment '/' (stripSuffix (stripQuery url))
  cases hc : findSuffix (lastSegment '/' (stripQuery url)) with
  | none =>
      rw [stripSuffixKeepExt_none hc, stripSuffix_none (hfs.symm.trans hc)]
  | some suf =>
      have hcp : findSuffix (stripQuery url) = some suf := hfs.symm.trans hc
      obtain ⟨hmem, t, ht⟩ := findSuffix_some hcp
      have hslash : '/' ∉ suf := noSlash_sizeSuffixes suf hmem
      have hfn0 : lastSegment '/' (stripQuery url) = lastSegment '/' t ++ suf := by
        rw [ht, lastSegment_append t hslash]
      have hname : (lastSegment '/' (stripQuery url)).take
          ((lastSegment '/' (stripQuery url)).length - suf.length)
          = lastSegment '/' t := by
        rw [hfn0, take_append_length]
      have hx : extract_filename_from_url url =
          if '.' ∈ lastSegment '/' t then lastSegment '/' t
          else lastSegment '/' (stripQuery url) := by
        show stripSuffixKeepExt (lastSegment '/' (stripQuery url)) = _
        rw [stripSuffixKeepExt_some hc, hname]
      have hright : lastSegment '/' (stripSuffix (stripQuery url))
          = lastSegment '/' t := by
        rw [stripSuffix_some hcp, ht, take_append_length]
      show extract_filename_from_url url = lastSegment '/' (stripSuffix (stripQuery url))
      rw [hx, hright]
      by_cases hdot : '.' ∈ lastSegment '/' t
      · rw [if_pos hdot]
      · exfalso
        rw [hx, if_neg hdot, hfn0] at h
        rcases List.mem_append.mp h with h1 | h1
        · exact hdot h1
        · exact noDot_sizeSuffixes suf hmem h1

theorem C7_duplicated_rules_agree_witness :
    '.' ∈ extract_filename_from_url "https://pbs.twimg.com/media/foo.jpg:large?x=1".data ∧
    extract_filename_from_url "https://pbs.twimg.com/media/foo.jpg:large?x=1".data
      = lastSegment '/'
          (original_url "https://pbs.twimg.com/media/foo.jpg:large?x=1".data) :=
  ⟨by decide, C7_duplicated_rules_agree _ (by decide)⟩

/-- C10: for every input string, `extract_filename_from_url` returns (totally,
with no failure path) a string containing no `/` character, so the download
destination built from it stays a direct child of the post's folder. -/
theorem C10_filename_has_no_slash :
    ∀ url : List Char, '/' ∉ extract_filename_from_url url :=
  fun url h => (mem_lastSegment (extract_subset_segment url h)).1 rfl

theorem C10_filename_has_no_slash_witness :
    '/' ∉ extract_filename_from_url "https://a/b/c.png".data :=
  C10_filename_has_no_slash _

/-! ## The timeline walk (`get_tweets_with_images` in `src/xid/twitter.py`)

The walk is modelled as a pure function.  Inputs: the stream of API response
pages (one `Page` per `get_users_tweets` call), a download-success oracle
`dl : String → Bool` standing for `download_image`'s result on each URL, and
the username.  Output: a `RunState` holding the two counters, the `aborted`
flag (`True` exactly when the Python code hit the mid-run `return` after a
failed download) and an append-only log of filesystem events.  Folder paths
are represented by the post's `created_at` value, from which
`create_tweet_folder` derives the folder name deterministically. -/

/-- A media object from `response.includes['media']`.  `url = none` models a
photo lacking a `url` attribute; the empty string models a falsy `url`. -/
structure Media where
  media_key : String
  mtype : String
  url : Option String
deriving Repr, DecidableEq

/-- A tweet from `response.data`.  `attachments = none` models a tweet whose
`attachments` attribute is missing or falsy; otherwise the value is the
`media_keys` list (`.get('media_keys', [])`). -/
structure Tweet where
  tid : String
  created_at : String
  text : String
  attachments : Option (List String)
deriving Repr, DecidableEq

/-- One API response page. -/
structure Page where
  pdata : List Tweet
  pmedia : List Media
  next_token : Bool
deriving Repr, DecidableEq

/-- A filesystem effect of the run. -/
inductive Event where
  | mkFolder (folder : String)
  | image (folder : String) (filename : String) (url : String)
  | tweetTxt (folder : String) (lines : List String)
deriving Repr, DecidableEq

/-- The mutable state of `get_tweets_with_images`. -/
structure RunState where
  processed : Nat
  withImages : Nat
  events : List Event
  aborted : Bool
deriving Repr, DecidableEq

/-- The `media_dict` built for each page: iterating the page's media list and
assigning `media_dict[media.media_key] = media`, so a later entry with the
same key overwrites an earlier one — lookup returns the last match. -/
def mediaLookup (ms : List Media) (k : String) : Option Media :=
  ms.reverse.find? (fun m => m.media_key == k)

/-- The `photos` list of a tweet: each attachment key resolved through the
page's `media_dict`, keeping only attachments of type `"photo"`, in key
order; unresolvable keys and non-photo attachments are dropped. -/
def photosOf (ms : List Media) (t : Tweet) : List Media :=
  match t.attachments with
  | none => []
  | some keys => keys.filterMap (fun k =>
      match mediaLookup ms k with
      | some m => if m.mtype = "photo" then some m else none
      | none => none)

/-- Value of `photo.url` when the attribute exists and is truthy, else `none`
(the `if not hasattr(photo, 'url') or not photo.url` check). -/
def presentUrl (m : Media) : Option String :=
  match m.url with
  | none => none
  | some u => if u = "" then none else some u

/-- Function `extract_filename_from_url` lifted to `String`. -/
def extract_filename (u : String) : String :=
  String.mk (extract_filename_from_url u.data)

/-- The lines written to `tweet.txt` by `save_tweet_content_v2` in
`src/xid/utils.py` (each `f.write` ends in a newline; `"Text:\n{text}"`
contributes the `"Text:"` line and then the body). -/
def save_tweet_content_v2 (t : Tweet) (username : String)
    (image_urls : List String) : List String :=
  ["Tweet ID: " ++ t.tid,
   "Created at: " ++ t.created_at,
   "Author: @" ++ username,
   "Text:",
   t.text]
  ++ (if image_urls.isEmpty then []
      else "" :: "Image URLs:" ::
        image_urls.enum.map (fun p => "  " ++ toString (p.1 + 1) ++ ". " ++ p.2))

/-- Result of the per-post download loop. -/
inductive PhotoResult where
  | ok (urls : List String) (evs : List Event)
  | abort (evs : List Event)
deriving Repr, DecidableEq

/-- The `for idx, photo in enumerate(photos, 1)` loop: skip photos without a
URL (with a warning only), append the URL to `image_urls` before attempting
the download, write the image file on success, and `return` from the whole
run on the first failed download. -/
def processPhotos (dl : String → Bool) (folder : String) :
    List Media → List String → List Event → PhotoResult
  | [], urls, evs => PhotoResult.ok urls evs
  | p :: rest, urls, evs =>
    match presentUrl p with
    | none => processPhotos dl folder rest urls evs
    | some u =>
      if dl u then
        processPhotos dl folder rest (urls ++ [u])
          (evs ++ [Event.image folder (extract_filename u) u])
      else PhotoResult.abort evs

/-- Processing of one tweet inside a page: increment the processed counter,
and when at least one photo resolves, create the folder, run the download
loop, and write `tweet.txt` unless the run aborted. -/
def processTweet (dl : String → Bool) (ms : List Media) (username : String)
    (t : Tweet) (st : RunState) : RunState :=
  let st1 : RunState := { st with processed := st.processed + 1 }
  let photos := photosOf ms t
  if photos.isEmpty then st1
  else
    let folder := t.created_at
    let st2 : RunState := { st1 with
      withImages := st1.withImages + 1
      events := st1.events ++ [Event.mkFolder folder] }
    match processPhotos dl folder photos [] [] with
    | PhotoResult.abort evs =>
        { st2 with events := st2.events ++ evs, aborted := true }
    | PhotoResult.ok urls evs =>
        { st2 with events := st2.events ++ evs
            ++ [Event.tweetTxt folder (save_tweet_content_v2 t username urls)] }

/-- The `for tweet in response.data` loop; a `return` inside the loop (the
`aborted` flag) skips every remaining tweet. -/
def processTweets (dl : String → Bool) (ms : List Media) (username : String) :
    List Tweet → RunState → RunState
  | [], st => st
  | t :: ts, st =>
    if st.aborted then st
    else processTweets dl ms username ts (processTweet dl ms username t st)

/-- The hard cap `max_tweets = 200` of `get_tweets_with_images`. -/
def max_tweets : Nat := 200

/-- The `while tweets_processed < max_tweets` pagination loop: fetch the next
page of the stream, stop on an empty page, process its tweets (stopping the
whole run if a download failed), and continue only when the page carries a
next-page token and the cap has not been reached. -/
def runPages (dl : String → Bool) (username : String) :
    List Page → RunState → RunState
  | [], st => st
  | pg :: rest, st =>
    if st.processed < max_tweets then
      if pg.pdata.isEmpty then st
      else
        let st1 := processTweets dl pg.pmedia username pg.pdata st
        if st1.aborted then st1
        else if pg.next_token && decide (st1.processed < max_tweets) then
          runPages dl username rest st1
        else st1
    else st

/-- Function `get_tweets_with_images`: the full walk started from zeroed counters and
an empty event log. -/
def get_tweets_with_images (dl : String → Bool) (username : String)
    (pages : List Page) : RunState :=
  runPages dl username pages { processed := 0, withImages := 0,
                               events := [], aborted := false }

/-! ### Lemmas about the timeline walk -/

theorem processPhotos_ok (dl : String → Bool) (folder : String) :
    ∀ (photos : List Media),
      (∀ u ∈ photos.filterMap presentUrl, dl u = true) →
      ∀ (urls : List String) (evs : List Event),
      processPhotos dl folder photos urls evs =
        PhotoResult.ok (urls ++ photos.filterMap presentUrl)
          (evs ++ (photos.filterMap presentUrl).map
            (fun u => Event.image folder (extract_filename u) u)) := by
  intro photos
  induction photos with
  | nil => intro _ urls evs; simp [processPhotos]
  | cons p rest ih =>
      intro hdl urls evs
      cases hpu : presentUrl p with
      | none =>
          rw [processPhotos, hpu]
          have := ih (fun u hu => hdl u (by simp [List.filterMap_cons, hpu, hu])) urls evs
          simpa [List.filterMap_cons, hpu] using this
      | some u =>
          have hu : dl u = true := hdl u (by simp [List.filterMap_cons, hpu])
          rw [processPhotos, hpu]
          simp only [hu, if_true]
          have := ih (fun v hv => hdl v (by simp [List.filterMap_cons, hpu, hv]))
            (urls ++ [u]) (evs ++ [Event.image folder (extract_filename u) u])
          rw [this]
          simp [List.filterMap_cons, hpu]

theorem processPhotos_abort (dl : String → Bool) (folder : String) :
    ∀ (photos : List Media) (urls : List String) (evs evs' : List Event),
      processPhotos dl folder photos urls evs = PhotoResult.abort evs' →
      ∃ tl, evs' = evs ++ tl ∧
        ∀ e ∈ tl, ∃ f n u, e = Event.image f n u := by
  intro photos
  induction photos with
  | nil =>
      intro urls evs evs' h
      simp [processPhotos] at h
  | cons p rest ih =>
      intro urls evs evs' h
      cases hpu : presentUrl p with
      | none =>
          rw [processPhotos, hpu] at h
          exact ih urls evs evs' h
      | some u =>
          simp only [processPhotos, hpu] at h
          by_cases hu : dl u = true
          · rw [if_pos hu] at h
            obtain ⟨tl, htl, himg⟩ := ih _ _ _ h
            refine ⟨Event.image folder (extract_filename u) u :: tl, by simp [htl], ?_⟩
            intro e he
            rcases List.mem_cons.mp he with he | he
            · exact ⟨_, _, _, he⟩
            · exact himg e he
          · rw [if_neg hu] at h
            cases h
            exact ⟨[], by simp, by intro e he; cases he⟩

theorem processTweet_empty (dl : String → Bool) (ms : List Media)
    (username : String) (t : Tweet) (st : RunState)
    (h : photosOf ms t = []) :
    processTweet dl ms username t st = { st with processed := st.processed + 1 } := by
  simp [processTweet, h]

theorem processTweet_ok_eq (dl : String → Bool) (ms : List Media)
    (username : String) (t : Tweet) (st : RunState)
    (urls : List String) (evs : List Event)
    (hne : (photosOf ms t).isEmpty = false)
    (h : processPhotos dl t.created_at (photosOf ms t) [] [] =
      PhotoResult.ok urls evs) :
    processTweet dl ms username t st =
      { processed := st.processed + 1
        withImages := st.withImages + 1
        events := ((st.events ++ [Event.mkFolder t.created_at]) ++ evs)
          ++ [Event.tweetTxt t.created_at (save_tweet_content_v2 t username urls)]
        aborted := st.aborted } := by
  simp [processTweet, hne, h]

theorem processTweet_abort_eq (dl : String → Bool) (ms : List Media)
    (username : String) (t : Tweet) (st : RunState) (evs : List Event)
    (hne : (photosOf ms t).isEmpty = false)
    (h : processPhotos dl t.created_at (photosOf ms t) [] [] =
      PhotoResult.abort evs) :
    processTweet dl ms username t st =
      { processed := st.processed + 1
        withImages := st.withImages + 1
        events := (st.events ++ [Event.mkFolder t.created_at]) ++ evs
        aborted := true } := by
  simp [processTweet, hne, h]

theorem processTweet_processed (dl : String → Bool) (ms : List Media)
    (username : String) (t : Tweet) (st : RunState) :
    (processTweet dl ms username t st).processed = st.processed + 1 := by
  cases hne : (photosOf ms t).isEmpty
  · cases h : processPhotos dl t.created_at (photosOf ms t) [] [] with
    | ok urls evs => rw [processTweet_ok_eq dl ms username t st urls evs hne h]
    | abort evs => rw [processTweet_abort_eq dl ms username t st evs hne h]
  · rw [processTweet_empty dl ms username t st (List.isEmpty_iff.mp hne)]

theorem processTweets_aborted (dl : String → Bool) (ms : List Media)
    (username : String) (ts : List Tweet) (st : RunState)
    (h : st.aborted = true) :
    processTweets dl ms username ts st = st := by
  cases ts with
  | nil => rfl
  | cons t ts => simp [processTweets, h]

theorem processTweets_processed_le (dl : String → Bool) (ms : List Media)
    (username : String) :
    ∀ (ts : List Tweet) (st : RunState),
      (processTweets dl ms username ts st).processed ≤ st.processed + ts.length := by
  intro ts
  induction ts with
  | nil => intro st; simp [processTweets]
  | cons t ts ih =>
      intro st
      rw [processTweets]
      by_cases h : st.aborted = true
      · rw [if_pos h]
        exact Nat.le_add_right _ _
      · rw [if_neg h]
        have h1 := ih (processTweet dl ms username t st)
        rw [processTweet_processed] at h1
        simp only [List.length_cons]
        omega

theorem runPages_aborted (dl : String → Bool) (username : String)
    (pages : List Page) (st : RunState) (h : st.aborted = true) :
    runPages dl username pages st = st := by
  cases pages with
  | nil => rfl
  | cons pg rest =>
      simp [runPages, processTweets_aborted dl pg.pmedia username pg.pdata st h, h]

theorem runPages_processed_le (dl : String → Bool) (username : String) :
    ∀ (pages : List Page) (st : RunState), st.processed < max_tweets →
      (∀ pg ∈ pages, pg.pdata.length ≤ 100) →
      (runPages dl username pages st).processed ≤ 299 := by
  intro pages
  induction pages with
  | nil =>
      intro st h _
      exact le_trans (Nat.le_of_lt h) (by decide)
  | cons pg rest ih =>
      intro st h hb
      have hlen : pg.pdata.length ≤ 100 := hb pg (List.mem_cons_self _ _)
      have h1 := processTweets_processed_le dl pg.pmedia username pg.pdata st
      rw [runPages, if_pos h]
      by_cases hemp : pg.pdata.isEmpty = true
      · rw [if_pos hemp]
        unfold max_tweets at h
        omega
      · rw [if_neg hemp]
        by_cases hab : (processTweets dl pg.pmedia username pg.pdata st).aborted = true
        · rw [if_pos hab]
          unfold max_tweets at h
          omega
        · rw [if_neg hab]
          by_cases hcont : (pg.next_token &&
              decide ((processTweets dl pg.pmedia username pg.pdata st).processed
                < max_tweets)) = true
          · rw [if_pos hcont]
            refine ih _ ?_ (fun q hq => hb q (List.mem_cons_of_mem _ hq))
            have := (Bool.and_eq_true _ _).mp hcont
            exact of_decide_eq_true this.2
          · rw [if_neg hcont]
            unfold max_tweets at h
            omega

/-! ## Claims about the timeline walk -/

/-- C1: fail-fast on a failed download.  (1) When a photo's URL is present
and its download fails, the per-post loop aborts at once, writing nothing
further: no later image of the post is attempted and the event log is left
exactly as it was before the failing photo.  (2) When processing a post ends
in the aborted state, the events added for that post never include a
`tweet.txt` write.  (3) An aborted state passes through the rest of the
page's posts unchanged, and (4) through the pagination loop unchanged, so
files already written for earlier posts are left as they are. -/
theorem C1_fail_fast :
    (∀ (dl : String → Bool) (folder : String) (p : Media) (rest : List Media)
       (urls : List String) (evs : List Event) (u : String),
       presentUrl p = some u → dl u = false →
       processPhotos dl folder (p :: rest) urls evs = PhotoResult.abort evs) ∧
    (∀ (dl : String → Bool) (ms : List Media) (username : String) (t : Tweet)
       (st : RunState), st.aborted = false →
       (processTweet dl ms username t st).aborted = true →
       ∃ tl, (processTweet dl ms username t st).events = st.events ++ tl ∧
         ∀ f ls, Event.tweetTxt f ls ∉ tl) ∧
    (∀ (dl : String → Bool) (ms : List Media) (username : String)
       (ts : List Tweet) (st : RunState), st.aborted = true →
       processTweets dl ms username ts st = st) ∧
    (∀ (dl : String → Bool) (username : String) (pages : List Page)
       (st : RunState), st.aborted = true →
       runPages dl username pages st = st) := by
  refine ⟨?_, ?_, processTweets_aborted, runPages_aborted⟩
  · intro dl folder p rest urls evs u hpu hdl
    simp [processPhotos, hpu, hdl]
  · intro dl ms username t st hst hab
    cases hne : (photosOf ms t).isEmpty
    · cases hpp : processPhotos dl t.created_at (photosOf ms t) [] [] with
      | ok us es =>
          rw [processTweet_ok_eq dl ms username t st us es hne hpp] at hab
          rw [hst] at hab
          cases hab
      | abort es =>
          rw [processTweet_abort_eq dl ms username t st es hne hpp]
          obtain ⟨tl, htl, himg⟩ := processPhotos_abort dl t.created_at _ _ _ _ hpp
          refine ⟨Event.mkFolder t.created_at :: tl, ?_, ?_⟩
          · simp [htl]
          · intro f ls hmem
            rcases List.mem_cons.mp hmem with hmem | hmem
            · cases hmem
            · obtain ⟨f', n', u', he⟩ := himg _ hmem
              cases he
    · rw [processTweet_empty dl ms username t st (List.isEmpty_iff.mp hne)] at hab
      rw [hst] at hab
      cases hab

def failMedia : Media :=
  { media_key := "m1", mtype := "photo", url := some "https://pbs.twimg.com/media/b.jpg" }

def failTweet : Tweet :=
  { tid := "1", created_at := "20230101_000000", text := "x",
    attachments := some ["m1"] }

def initState : RunState :=
  { processed := 0, withImages := 0, events := [], aborted := false }

theorem C1_fail_fast_witness :
    processPhotos (fun _ => false) "f" [failMedia, failMedia] [] []
      = PhotoResult.abort [] ∧
    (∃ tl, (processTweet (fun _ => false) [failMedia] "u" failTweet initState).events
        = initState.events ++ tl ∧ ∀ f ls, Event.tweetTxt f ls ∉ tl) ∧
    processTweets (fun _ => false) [] "u" [failTweet]
      { initState with aborted := true } = { initState with aborted := true } ∧
    runPages (fun _ => false) "u" [] { initState with aborted := true }
      = { initState with aborted := true } :=
  ⟨C1_fail_fast.1 _ _ _ _ _ _ "https://pbs.twimg.com/media/b.jpg" (by decide) rfl,
   C1_fail_fast.2.1 _ _ _ _ _ rfl (by decide),
   C1_fail_fast.2.2.1 _ _ _ _ _ rfl,
   C1_fail_fast.2.2.2 _ _ _ _ rfl⟩

def capTweet : Tweet :=
  { tid := "1", created_at := "t", text := "x", attachments := none }

def capPage : Page :=
  { pdata := List.replicate 99 capTweet, pmedia := [], next_token := true }

set_option maxRecDepth 4000 in
/-- C2 counterexample: three pages of 99 posts each (all within the
requested `max_results = 100`) drive the processed-posts counter to 297,
exceeding 200 — the cap only gates fetching the next page, not the posts of
the page already fetched. -/
theorem C2_cap_counterexample :
    200 < (get_tweets_with_images (fun _ => true) "user"
      [capPage, capPage, capPage]).processed ∧
    (get_tweets_with_images (fun _ => true) "user"
      [capPage, capPage, capPage]).processed = 297 := by
  constructor <;> decide

/-- C2 (amended): a new page is fetched only while the processed counter is
strictly below 200, so when every page holds at most 100 posts (the
requested `max_results`) the counter never exceeds 299 = 199 + 100; it can,
however, exceed 200 (see the counterexample). -/
theorem C2_cap_amended (dl : String → Bool) (username : String)
    (pages : List Page) (h : ∀ pg ∈ pages, pg.pdata.length ≤ 100) :
    (get_tweets_with_images dl username pages).processed ≤ 299 :=
  runPages_processed_le dl username pages _ (by decide) h

set_option maxRecDepth 4000 in
theorem C2_cap_amended_witness :
    (get_tweets_with_images (fun _ => true) "user"
      [capPage, capPage, capPage]).processed ≤ 299 :=
  C2_cap_amended _ _ _ (by decide)

/-- Full characterization of a successfully processed photo-bearing post:
used by the C4 and C9 claims below. -/
theorem processTweet_success_eq (dl : String → Bool) (ms : List Media)
    (username : String) (t : Tweet) (st : RunState)
    (hne : photosOf ms t ≠ [])
    (hdl : ∀ u ∈ (photosOf ms t).filterMap presentUrl, dl u = true) :
    processTweet dl ms username t st =
      { processed := st.processed + 1
        withImages := st.withImages + 1
        events := st.events ++ Event.mkFolder t.created_at ::
          (((photosOf ms t).filterMap presentUrl).map
            (fun u => Event.image t.created_at (extract_filename u) u)
          ++ [Event.tweetTxt t.created_at
              (["Tweet ID: " ++ t.tid,
                "Created at: " ++ t.created_at,
                "Author: @" ++ username,
                "Text:",
                t.text]
               ++ (if ((photosOf ms t).filterMap presentUrl).isEmpty then []
                   else "" :: "Image URLs:" ::
                     ((photosOf ms t).filterMap presentUrl).enum.map
                       (fun p => "  " ++ toString (p.1 + 1) ++ ". " ++ p.2)))])
        aborted := st.aborted } := by
  have hne' : (photosOf ms t).isEmpty = false := by
    cases hh : (photosOf ms t).isEmpty
    · rfl
    · exact absurd (List.isEmpty_iff.mp hh) hne
  have hok := processPhotos_ok dl t.created_at (photosOf ms t) hdl [] []
  rw [processTweet_ok_eq dl ms username t st _ _ hne' hok]
  simp [save_tweet_content_v2]

/-- C4: whenever metadata is written for a post (i.e. the post has resolved
photos and every present photo URL downloads successfully), the run produces
the folder, one image file per present URL in photo order, and a `tweet.txt`
holding exactly: the post identifier line, the creation-timestamp line, the
author handle prefixed with `@`, a `Text:` line followed by the body, and —
only when at least one URL was recorded — a blank line, an `Image URLs:`
header, and the 1-indexed list of exactly the present photo URLs in photo
order; photos lacking a URL are absent and do not abort the run. -/
theorem C4_metadata_content (dl : String → Bool) (ms : List Media)
    (username : String) (t : Tweet) (st : RunState)
    (hne : photosOf ms t ≠ [])
    (hdl : ∀ u ∈ (photosOf ms t).filterMap presentUrl, dl u = true) :
    processTweet dl ms username t st =
      { processed := st.processed + 1
        withImages := st.withImages + 1
        events := st.events ++ Event.mkFolder t.created_at ::
          (((photosOf ms t).filterMap presentUrl).map
            (fun u => Event.image t.created_at (extract_filename u) u)
          ++ [Event.tweetTxt t.created_at
              (["Tweet ID: " ++ t.tid,
                "Created at: " ++ t.created_at,
                "Author: @" ++ username,
                "Text:",
                t.text]
               ++ (if ((photosOf ms t).filterMap presentUrl).isEmpty then []
                   else "" :: "Image URLs:" ::
                     ((photosOf ms t).filterMap presentUrl).enum.map
                       (fun p => "  " ++ toString (p.1 + 1) ++ ". " ++ p.2)))])
        aborted := st.aborted } :=
  processTweet_success_eq dl ms username t st hne hdl

def urlMedia : Media :=
  { media_key := "a", mtype := "photo",
    url := some "https://pbs.twimg.com/media/x.jpg" }

def noUrlMedia : Media :=
  { media_key := "b", mtype := "photo", url := none }

def twoPhotoTweet : Tweet :=
  { tid := "7", created_at := "20230101_000000", text := "hello",
    attachments := some ["a", "b"] }

theorem C4_metadata_content_witness :
    photosOf [urlMedia, noUrlMedia] twoPhotoTweet ≠ [] ∧
    processTweet (fun _ => true) [urlMedia, noUrlMedia] "u" twoPhotoTweet initState =
      { processed := initState.processed + 1
        withImages := initState.withImages + 1
        events := initState.events ++ Event.mkFolder twoPhotoTweet.created_at ::
          (((photosOf [urlMedia, noUrlMedia] twoPhotoTweet).filterMap presentUrl).map
            (fun u => Event.image twoPhotoTweet.created_at (extract_filename u) u)
          ++ [Event.tweetTxt twoPhotoTweet.created_at
              (["Tweet ID: " ++ twoPhotoTweet.tid,
                "Created at: " ++ twoPhotoTweet.created_at,
                "Author: @" ++ "u",
                "Text:",
                twoPhotoTweet.text]
               ++ (if ((photosOf [urlMedia, noUrlMedia] twoPhotoTweet).filterMap
                      presentUrl).isEmpty then []
                   else "" :: "Image URLs:" ::
                     ((photosOf [urlMedia, noUrlMedia] twoPhotoTweet).filterMap
                       presentUrl).enum.map
                       (fun p => "  " ++ toString (p.1 + 1) ++ ". " ++ p.2)))])
        aborted := initState.aborted } :=
  ⟨by decide, C4_metadata_content (fun _ => true) _ _ _ _ (by decide) (by decide)⟩

/-- C5: for every page and post, the kept photos are exactly the attachment
keys that resolve in the page's media lookup to an attachment of type
`"photo"`, in key order (non-resolving keys and non-photo attachments are
dropped silently), and a post for which zero photos resolve gets no folder,
no download, no metadata file, and does not increment the with-images
count. -/
theorem C5_photo_filter :
    (∀ (ms : List Media) (keys : List String) (t : Tweet),
       t.attachments = some keys →
       photosOf ms t = (keys.filterMap (fun k => mediaLookup ms k)).filter
         (fun m => decide (m.mtype = "photo"))) ∧
    (∀ (dl : String → Bool) (ms : List Media) (username : String) (t : Tweet)
       (st : RunState), photosOf ms t = [] →
       processTweet dl ms username t st = { st with processed := st.processed + 1 }) := by
  refine ⟨?_, fun dl ms username t st h => processTweet_empty dl ms username t st h⟩
  intro ms keys t hatt
  unfold photosOf
  rw [hatt]
  show keys.filterMap _ = _
  clear hatt
  induction keys with
  | nil => rfl
  | cons k ks ih =>
      simp only [List.filterMap_cons]
      cases hmk : mediaLookup ms k with
      | none => simpa using ih
      | some m =>
          by_cases hm : m.mtype = "photo"
          · simp [hm, List.filter_cons, ih]
          · simp [hm, List.filter_cons, ih]

def videoMedia : Media :=
  { media_key := "v", mtype := "video",
    url := some "https://video.twimg.com/v.mp4" }

def videoTweet : Tweet :=
  { tid := "9", created_at := "20230102_000000", text := "clip",
    attachments := some ["v", "missing"] }

theorem C5_photo_filter_witness :
    photosOf [videoMedia] videoTweet =
      ((["v", "missing"] : List String).filterMap
        (fun k => mediaLookup [videoMedia] k)).filter
        (fun m => decide (m.mtype = "photo")) ∧
    processTweet (fun _ => true) [videoMedia] "u" videoTweet initState =
      { initState with processed := initState.processed + 1 } :=
  ⟨C5_photo_filter.1 _ _ _ rfl,
   C5_photo_filter.2 _ _ _ _ _ (by decide)⟩

/-- C9: a post whose attachments resolve to at least one photo, all of which
lack a URL, still gets its folder created and still increments the
with-images count; no download is attempted, the run does not abort, and the
`tweet.txt` written contains only the five header/body lines — no
`Image URLs:` section. -/
theorem C9_all_urls_missing (dl : String → Bool) (ms : List Media)
    (username : String) (t : Tweet) (st : RunState)
    (hne : photosOf ms t ≠ [])
    (hnone : ∀ p ∈ photosOf ms t, presentUrl p = none) :
    processTweet dl ms username t st =
      { processed := st.processed + 1
        withImages := st.withImages + 1
        events := st.events ++ [Event.mkFolder t.created_at,
          Event.tweetTxt t.created_at
            ["Tweet ID: " ++ t.tid,
             "Created at: " ++ t.created_at,
             "Author: @" ++ username,
             "Text:",
             t.text]]
        aborted := st.aborted } := by
  have hfm : (photosOf ms t).filterMap presentUrl = [] :=
    List.filterMap_eq_nil_iff.mpr hnone
  have hc := processTweet_success_eq dl ms username t st hne
    (by rw [hfm]; intro u hu; cases hu)
  rw [hfm] at hc
  simpa using hc

def missingUrlTweet : Tweet :=
  { tid := "3", created_at := "20230103_000000", text := "pic",
    attachments := some ["b"] }

theorem C9_all_urls_missing_witness :
    processTweet (fun _ => true) [noUrlMedia] "u" missingUrlTweet initState =
      { processed := initState.processed + 1
        withImages := initState.withImages + 1
        events := initState.events ++ [Event.mkFolder missingUrlTweet.created_at,
          Event.tweetTxt missingUrlTweet.created_at
            ["Tweet ID: " ++ missingUrlTweet.tid,
             "Created at: " ++ missingUrlTweet.created_at,
             "Author: @" ++ "u",
             "Text:",
             missingUrlTweet.text]]
        aborted := initState.aborted } :=
  C9_all_urls_missing _ _ _ _ _ (by decide) (by decide)

/-! ## Folder creation (`create_tweet_folder` in `src/xid/utils.py`) -/

/-- A datetime value as handed to `strftime`. -/
structure DateTime where
  year : Nat
  month : Nat
  day : Nat
  hour : Nat
  minute : Nat
  second : Nat
deriving Repr, DecidableEq

/-- Zero-padding to two digits, as the `%m %d %H %M %S` directives produce. -/
def pad2 (n : Nat) : String :=
  if n < 10 then "0" ++ toString n else toString n

/-- Format `tweet_created_at.strftime("%Y%m%d_%H%M%S")` in `create_tweet_folder`
(years of interest have four digits, so `%Y` is the plain decimal year). -/
def strftime_folder (dt : DateTime) : String :=
  toString dt.year ++ pad2 dt.month ++ pad2 dt.day ++ "_"
    ++ pad2 dt.hour ++ pad2 dt.minute ++ pad2 dt.second

/-- The local directory tree: every existing directory path paired with its
contents. -/
structure FS where
  dirs : List (String × List String)
deriving Repr, DecidableEq

/-- The contents of directory `p`, when it exists. -/
def FS.lookup (fs : FS) (p : String) : Option (List String) :=
  (fs.dirs.find? (fun d => d.1 == p)).map (fun d => d.2)

/-- Semantics of `Path.mkdir(exist_ok=True)` in pathlib: create the directory
when absent; when it already exists, change nothing and raise no error. -/
def FS.mkdirExistOk (fs : FS) (p : String) : FS :=
  match fs.lookup p with
  | some _ => fs
  | none => { dirs := fs.dirs ++ [(p, [])] }

/-- Function `create_tweet_folder` from `src/xid/utils.py`: format the timestamp,
join it with the base directory, create the folder with `exist_ok=True`, and
return its path. -/
def create_tweet_folder (fs : FS) (output_path : String) (dt : DateTime) :
    String × FS :=
  (output_path ++ "/" ++ strftime_folder dt,
   fs.mkdirExistOk (output_path ++ "/" ++ strftime_folder dt))

theorem mkdirExistOk_of_lookup_some {fs : FS} {p : String} {c : List String}
    (h : fs.lookup p = some c) : fs.mkdirExistOk p = fs := by
  unfold FS.mkdirExistOk
  rw [h]

theorem lookup_mkdirExistOk_self (fs : FS) (p : String) :
    ∃ c, (fs.mkdirExistOk p).lookup p = some c := by
  unfold FS.mkdirExistOk
  cases h : fs.lookup p with
  | some c => exact ⟨c, h⟩
  | none =>
      refine ⟨[], ?_⟩
      unfold FS.lookup at h ⊢
      rw [List.find?_append]
      cases hf : fs.dirs.find? (fun d => d.1 == p) with
      | some d => rw [hf] at h; cases h
      | none => simp

theorem lookup_mkdirExistOk_mono (fs : FS) (p d : String) (c : List String)
    (h : fs.lookup d = some c) : (fs.mkdirExistOk p).lookup d = some c := by
  unfold FS.mkdirExistOk
  cases hp : fs.lookup p with
  | some _ => exact h
  | none =>
      unfold FS.lookup at h ⊢
      rw [List.find?_append]
      cases hf : fs.dirs.find? (fun e => e.1 == d) with
      | some e => rw [hf] at h; simpa using h
      | none => rw [hf] at h; cases h

/-- C8: `create_tweet_folder` returns the base path joined with the
timestamp formatted as `YYYYMMDD_HHMMSS`; calling it twice with the same
arguments raises no error, returns the same path both times, leaves the
filesystem of the first call unchanged, and every directory's previous
contents survive each call; after the call the folder exists. -/
theorem C8_create_folder (fs : FS) (base : String) (dt : DateTime) :
    (create_tweet_folder fs base dt).1 = base ++ "/" ++ strftime_folder dt ∧
    (create_tweet_folder (create_tweet_folder fs base dt).2 base dt).1
      = (create_tweet_folder fs base dt).1 ∧
    (create_tweet_folder (create_tweet_folder fs base dt).2 base dt).2
      = (create_tweet_folder fs base dt).2 ∧
    (∀ d c, fs.lookup d = some c →
      ((create_tweet_folder fs base dt).2).lookup d = some c) ∧
    ((create_tweet_folder fs base dt).2).lookup
      (base ++ "/" ++ strftime_folder dt) ≠ none ∧
    strftime_folder ⟨2023, 5, 7, 9, 30, 5⟩ = "20230507_093005" := by
  obtain ⟨c, hc⟩ := lookup_mkdirExistOk_self fs (base ++ "/" ++ strftime_folder dt)
  simp only [create_tweet_folder]
  refine ⟨trivial, trivial, ?_, ?_, ?_, by decide⟩
  · exact mkdirExistOk_of_lookup_some hc
  · intro d c' h
    exact lookup_mkdirExistOk_mono fs _ d c' h
  · rw [hc]
    intro h
    cases h

def fs0 : FS := { dirs := [("old", ["a.jpg"])] }

theorem C8_create_folder_witness :
    (create_tweet_folder fs0 "out" ⟨2023, 5, 7, 9, 30, 5⟩).1
      = "out/20230507_093005" ∧
    FS.lookup (create_tweet_folder fs0 "out" ⟨2023, 5, 7, 9, 30, 5⟩).2 "old"
      = some ["a.jpg"] :=
  ⟨((C8_create_folder fs0 "out" ⟨2023, 5, 7, 9, 30, 5⟩).1).trans (by decide),
   (C8_create_folder fs0 "out" ⟨2023, 5, 7, 9, 30, 5⟩).2.2.2.1 "old" ["a.jpg"] rfl⟩

end XID
